import Mathlib

/-!
Verification of the container-dashboard normalization pipeline
(`docker_manager.py`): the port parser, the database classifier, the
container-name normalizer, the catalog builder and the container lister.

Python strings are modelled as `List Char`; each Python helper is
translated into an executable Lean function operating on that model.
-/

namespace DockerDash

/-- Python strings, modelled as lists of characters. -/
abbrev Str := List Char

/-- ASCII whitespace test, modelling the characters stripped by Python's
`str.strip()` for the ASCII inputs this pipeline handles. -/
def isWS (c : Char) : Bool := c.isWhitespace

/-- Model of `s.strip()`: remove leading and trailing whitespace. -/
def pyStrip (s : Str) : Str :=
  ((s.dropWhile isWS).reverse.dropWhile isWS).reverse

/-- Model of `s.strip(c)` for a single-character argument: remove leading and
trailing copies of `c`. -/
def stripChar (c : Char) (s : Str) : Str :=
  ((s.dropWhile (fun x => x = c)).reverse.dropWhile (fun x => x = c)).reverse

/-- Prepend a character onto the first chunk of a split result. -/
def consHead (c : Char) : List Str → List Str
  | [] => [[c]]
  | h :: t => (c :: h) :: t

/-- Model of `s.split(sep)` for a single-character separator: always returns at
least one (possibly empty) chunk, one more chunk per separator occurrence. -/
def splitOnChar (sep : Char) : Str → List Str
  | [] => [[]]
  | c :: rest =>
    if c = sep then [] :: splitOnChar sep rest
    else consHead c (splitOnChar sep rest)

/-- Model of `s.split('->')`: split on each non-overlapping occurrence of the
two-character arrow, scanning left to right. -/
def splitArrow : Str → List Str
  | [] => [[]]
  | [c] => [[c]]
  | c :: d :: rest =>
    if c = '-' ∧ d = '>' then [] :: splitArrow rest
    else consHead c (splitArrow (d :: rest))

/-- Model of `'->' in s`. -/
def containsArrow : Str → Bool
  | [] => false
  | [_] => false
  | c :: d :: rest =>
    if c = '-' ∧ d = '>' then true
    else containsArrow (d :: rest)

/-- Model of `c in s` for a single character. -/
def containsChar (c : Char) : Str → Bool
  | [] => false
  | x :: rest => if x = c then true else containsChar c rest

/-- Does the string start with a digit? -/
def digitLead : Str → Bool
  | [] => false
  | c :: _ => c.isDigit

/-- Model of `re.search(r':(\d+)', s)`: the maximal digit run following the
leftmost colon that is immediately followed by a digit. -/
def searchColonDigits : Str → Option Str
  | [] => none
  | c :: rest =>
    if c = ':' ∧ digitLead rest = true then some (rest.takeWhile Char.isDigit)
    else searchColonDigits rest

/-- Model of `re.search(r'(\d+)', s)`: the leftmost maximal digit run. -/
def searchDigits : Str → Option Str
  | [] => none
  | c :: rest =>
    if c.isDigit = true then some (c :: rest.takeWhile Char.isDigit)
    else searchDigits rest

/-- One iteration of the loop body of `parse_ports`: parse a single
comma-separated clause into an optional `(host_port, container_port)`
pair, mirroring the Python branch structure exactly. -/
def parseClause (m0 : Str) : Option (Str × Str) :=
  let m := pyStrip m0
  if containsArrow m = true then
    match splitArrow m with
    | [l, r] =>
      match searchColonDigits (pyStrip l), searchDigits (pyStrip r) with
      | some h, some c => some (h, c)
      | _, _ => none
    | _ => none
  else if containsChar ':' m = true ∧ ¬ ([':', ':'].isPrefixOf m) then
    match splitOnChar ':' m with
    | p0 :: p1 :: _ => some (pyStrip p0, (splitOnChar '/' (pyStrip p1)).headD [])
    | _ => none
  else none

/-- Model of `DockerManager.parse_ports`: split the port string on commas and
collect the pairs produced per clause. -/
def parse_ports (ports_str : Str) : List (Str × Str) :=
  if ports_str = [] then []
  else (splitOnChar ',' ports_str).filterMap parseClause

/-- Model of `s.lower()` (ASCII case fold). -/
def lowerStr (s : Str) : Str := s.map Char.toLower

/-- Model of `needle in hay` (substring containment; the empty needle is contained
in every string). -/
def isSubstrOf (needle : Str) : Str → Bool
  | [] => needle.isEmpty
  | c :: rest => needle.isPrefixOf (c :: rest) || isSubstrOf needle rest

/-- The fixed keyword vocabulary of `is_database_container`, in source
order. -/
def database_keywords : List Str :=
  (["mysql", "postgres", "postgresql", "mongo", "mongodb", "redis",
    "database", "db", "sql", "nosql", "mariadb", "sqlite", "cassandra",
    "elasticsearch", "influxdb", "couchdb", "neo4j", "orientdb",
    "couchbase", "dynamodb", "firebase", "rethinkdb", "arangodb",
    "timescaledb", "clickhouse", "questdb", "quest", "supabase",
    "planetscale", "neon", "railway", "vercel", "supabase",
    "db-", "-db", "_db", "db_", "database-", "-database", "_database"]
   : List String).map String.toList

/-- Model of `DockerManager.is_database_container`: case-fold both fields and test
every keyword for substring containment in either. -/
def is_database_container (name image : Str) : Bool :=
  let name_lower := lowerStr name
  let image_lower := lowerStr image
  database_keywords.any fun kw =>
    isSubstrOf kw name_lower || isSubstrOf kw image_lower

/-- The fixed generic-term vocabulary of `clean_container_name`, in source
order (duplicates included). -/
def generic_terms : List Str :=
  (["frontend", "backend", "server", "docker", "app", "web", "api",
    "service", "container", "instance", "main", "primary", "default",
    "prod", "production", "dev", "development", "test", "testing",
    "staging", "preview", "demo", "example", "sample", "temp", "tmp",
    "nginx", "proxy", "gateway", "router", "loadbalancer", "lb",
    "cache", "redis", "db", "database", "sql", "nosql", "storage",
    "file", "files", "upload", "download", "static", "assets",
    "media", "image", "images", "video", "audio", "music", "photo",
    "admin", "management", "dashboard", "panel", "control", "config",
    "setup", "install", "init", "bootstrap", "startup", "launcher",
    "runner", "executor", "worker", "processor", "handler", "manager",
    "controller", "monitor", "watcher", "observer", "listener",
    "receiver", "sender", "publisher", "subscriber", "consumer",
    "producer", "generator", "creator", "builder", "compiler",
    "transformer", "converter", "parser", "analyzer", "scanner",
    "crawler", "spider", "bot", "agent", "daemon", "process",
    "thread", "task", "job", "work", "operation", "function",
    "module", "component", "part", "piece", "unit", "element",
    "item", "object", "entity", "record", "entry", "row", "line",
    "node", "point", "spot", "place", "location", "position",
    "site", "area", "zone", "region", "section", "segment",
    "chunk", "block", "fragment", "portion", "bit", "part",
    "webservice", "webserver", "webui", "web-ui", "ui", "interface",
    "1", "2", "3", "4", "5", "6", "7", "8", "9", "0",
    "-1", "-2", "-3", "-4", "-5", "-6", "-7", "-8", "-9", "-0"]
   : List String).map String.toList

/-- The four separators used by the generic-term stripping loop, in source
order. -/
def seps : List Char := ['-', '_', '.', ' ']

/-- Fuelled worker for `replacePat`; the fuel is an upper bound on the
number of characters still to scan, so structural recursion on it keeps
the definition kernel-reducible. -/
def replacePatFuel (pat rep : Str) : Nat → Str → Str
  | _, [] => []
  | 0, s => s
  | fuel + 1, c :: rest =>
    if pat ≠ [] ∧ pat.isPrefixOf (c :: rest) then
      rep ++ replacePatFuel pat rep fuel ((c :: rest).drop pat.length)
    else
      c :: replacePatFuel pat rep fuel rest

/-- Model of `s.replace(pat, rep)`: replace each non-overlapping occurrence of
`pat`, scanning left to right. (All call sites pass a non-empty `pat`.) -/
def replacePat (pat rep : Str) (s : Str) : Str :=
  replacePatFuel pat rep s.length s

/-- The inner loop body of `clean_container_name`'s term stripping: for
one `(term, separator)` pair, replace `sep+term+sep` by `sep`, then strip
a leading `term+sep`, then strip a trailing `sep+term`. -/
def stripTermSep (sep : Char) (term : Str) (s : Str) : Str :=
  let s1 := replacePat (sep :: (term ++ [sep])) [sep] s
  let s2 := if (term ++ [sep]).isPrefixOf s1 then s1.drop (term.length + 1) else s1
  if (sep :: term).isSuffixOf s2 then s2.take (s2.length - (term.length + 1)) else s2

/-- One iteration of the outer term loop: strip one generic term with
each of the four separators in order. -/
def termStep (acc : Str) (term : Str) : Str :=
  seps.foldl (fun acc2 sep => stripTermSep sep term acc2) acc

/-- The full generic-term removal pass: every term in order, every
separator in order. -/
def stripGenericTerms (s : Str) : Str :=
  generic_terms.foldl termStep s

/-- Membership in `[a-zA-Z0-9]`. -/
def isAlnum (c : Char) : Bool := c.isAlpha || c.isDigit

/-- Worker for `splitNonAlnum`: when `inSep` is set we are inside a run
of non-alphanumeric characters whose empty chunk has already been
emitted, so further such characters are swallowed. -/
def splitNAGo : Bool → Str → List Str
  | _, [] => [[]]
  | inSep, c :: rest =>
    if isAlnum c then consHead c (splitNAGo false rest)
    else if inSep then splitNAGo true rest
    else [] :: splitNAGo true rest

/-- Model of `re.split(r'[^a-zA-Z0-9]+', s)`: split on each maximal run of
non-alphanumeric characters (boundary runs contribute empty chunks). -/
def splitNonAlnum (s : Str) : List Str := splitNAGo false s

/-- The deduplication loop: keep each non-empty word whose lowercasing
has not been seen, preserving first-seen order. -/
def dedupeWords (ws : List Str) : List Str :=
  ws.foldl (fun acc w =>
    if w ≠ [] ∧ ¬ ((acc.map lowerStr).contains (lowerStr w)) then acc ++ [w] else acc) []

/-- Model of `sep.join(chunks)`. -/
def joinWith (sep : Str) : List Str → Str
  | [] => []
  | [x] => x
  | x :: xs => x ++ sep ++ joinWith sep xs

/-- Model of `s.split()` (no argument): whitespace-separated words, empties
dropped. A word is closed as soon as the following character is
whitespace (or the string ends). -/
def wordsWS : Str → List Str
  | [] => []
  | [c] => if isWS c then [] else [[c]]
  | c :: d :: rest =>
    if isWS c then wordsWS (d :: rest)
    else if isWS d then [c] :: wordsWS rest
    else consHead c (wordsWS (d :: rest))

/-- Model of `word.capitalize()`: first character uppercased, the rest lowercased. -/
def pyCapitalize : Str → Str
  | [] => []
  | c :: rest => c.toUpper :: rest.map Char.toLower

/-- Model of `image.split('/')[-1].split(':')[0].split('@')[0]`: the base image
name with registry path, tag and digest stripped. -/
def image_base (image : Str) : Str :=
  (splitOnChar '@' ((splitOnChar ':' ((splitOnChar '/' image).getLastD [])).headD [])).headD []

/-- Model of `clean_container_name` up to (and including) the dedup-and-rejoin
step: lowercase, strip generic terms, trim separators, split on
non-alphanumeric runs, dedupe, rejoin with single spaces. -/
def cleaned_core (name : Str) : Str :=
  let c1 := stripGenericTerms (lowerStr name)
  let c2 := seps.foldl (fun acc sep => stripChar sep acc) c1
  joinWith [' '] (dedupeWords (splitNonAlnum c2))

/-- Model of `DockerManager.clean_container_name`: clean the name, fall back to
the base image name when fewer than 3 characters remain, then
title-case each word. -/
def clean_container_name (name image : Str) : Str :=
  let cleaned := cleaned_core name
  let cleaned := if cleaned.length < 3 ∨ cleaned = [] then image_base image else cleaned
  joinWith [' '] ((wordsWS cleaned).map pyCapitalize)

/-- A raw container record produced by the lister: the four pipe-separated
fields of one `docker ps` output line. -/
structure ContainerRecord where
  name : Str
  image : Str
  status : Str
  ports : Str
deriving DecidableEq, Repr

/-- The `DockerService` dataclass. -/
structure DockerService where
  name : Str
  image : Str
  status : Str
  ports : List (Str × Str)
  github_repo : Option Str := none
  category : Str := "Other".toList
  description : Str := []
deriving DecidableEq, Repr

/-- One iteration of the loop body of `process_containers`: skip database
containers and containers with no parsed ports, otherwise build a
`DockerService` with the cleaned name. -/
def mkService (c : ContainerRecord) : Option DockerService :=
  let ports := parse_ports c.ports
  if is_database_container c.name c.image then none
  else if ports = [] then none
  else some { name := clean_container_name c.name c.image,
              image := c.image, status := c.status, ports := ports }

/-- Lexicographic `≤` on code points, modelling Python string comparison
of the lowercased sort keys. -/
def lexLe : Str → Str → Bool
  | [], _ => true
  | _ :: _, [] => false
  | a :: as, b :: bs => if a = b then lexLe as bs else decide (a < b)

/-- The sort key comparison of `process_containers`:
`key=lambda x: x.name.lower()`, ascending. -/
def serviceLe (a b : DockerService) : Bool :=
  lexLe (lowerStr a.name) (lowerStr b.name)

/-- Model of `services.sort(key=lambda x: x.name.lower())`: a stable sort on the
lowercased display name. -/
def sortServices (l : List DockerService) : List DockerService :=
  l.mergeSort serviceLe

/-- Model of `DockerManager.process_containers`, given the lister output: filter
and transform each record in order, then sort. -/
def process_containers (containers : List ContainerRecord) : List DockerService :=
  sortServices (containers.filterMap mkService)

/-- The outcome of the `subprocess.run` call in `get_docker_containers`:
either the runtime's stdout, or one of the two caught exceptions. -/
inductive RunResult where
  | ok (stdout : Str)
  | calledProcessError
  | fileNotFound
deriving DecidableEq, Repr

/-- The body of the stdout-parsing loop of `get_docker_containers`:
keep a line only when its stripped form is non-empty and it splits into
at least four pipe-separated fields, of which exactly the first four are
used. -/
def parseLine (line : Str) : Option ContainerRecord :=
  if pyStrip line ≠ [] then
    let parts := splitOnChar '|' line
    if parts.length ≥ 4 then
      some { name := parts.getD 0 [], image := parts.getD 1 [],
             status := parts.getD 2 [], ports := parts.getD 3 [] }
    else none
  else none

/-- Model of `DockerManager.get_docker_containers`: on either caught exception
return the empty list; otherwise strip the stdout, split it into lines
and parse each line. -/
def get_docker_containers : RunResult → List ContainerRecord
  | .calledProcessError => []
  | .fileNotFound => []
  | .ok stdout => (splitOnChar '\n' (pyStrip stdout)).filterMap parseLine

/-! ### Specification-side definitions used in claim statements

These do not model code; they encode shapes and instances named by the
specification, for comparison with the embedded source functions. -/

/-- Holds when the string contains no colon immediately followed by a
digit, so that `re.search(r':(\d+)', iface ++ ':' ++ host)` cannot match
inside `iface`. IPv4 interfaces, the bare bracketed `[::]`, and the empty
interface all satisfy this; `[::1]` does not. -/
def colonDigitFree : Str → Bool
  | [] => true
  | [_] => true
  | c :: d :: rest =>
    if c = ':' ∧ d.isDigit = true then false else colonDigitFree (d :: rest)

/-- The explicit port-mapping clause shape named by the specification:
`<host-interface>:<host-port>-><container-port>/<proto>`. -/
def specArrowClause (iface host cont proto : Str) : Str :=
  iface ++ ':' :: (host ++ '-' :: '>' :: (cont ++ '/' :: proto))

/-- A non-empty string consisting entirely of digits. -/
def digitsStr (s : Str) : Bool := !(s.isEmpty) && s.all Char.isDigit

/-- A well-formed host-interface prefix: free of colon-digit pairs, of
arrows, of commas and of whitespace. -/
def goodIface (iface : Str) : Bool :=
  colonDigitFree iface && !(containsArrow iface) &&
    iface.all (fun ch => !(ch == ',') && !(isWS ch))

/-- A well-formed protocol suffix: free of arrows, commas and whitespace. -/
def goodProto (proto : Str) : Bool :=
  !(containsArrow proto) && proto.all (fun ch => !(ch == ',') && !(isWS ch))

/-- The database-image record of the spec's end-to-end example. -/
def pgRecord : ContainerRecord :=
  { name := "pg".toList, image := "postgres:15".toList,
    status := "Up 5 minutes".toList, ports := "5432:5432/tcp".toList }

/-- The no-ports record of the spec's end-to-end example. -/
def noPortsRecord : ContainerRecord :=
  { name := "cronjobs".toList, image := "myorg/cron:1".toList,
    status := "Up 5 minutes".toList, ports := [] }

/-- The valid web-application record of the spec's end-to-end example. -/
def webRecord : ContainerRecord :=
  { name := "webapp".toList, image := "myorg/webapp:latest".toList,
    status := "Up 2 hours".toList, ports := "0.0.0.0:8080->80/tcp".toList }

/-- The service record the catalog builder derives from `webRecord`. -/
def webService : DockerService :=
  { name := "Webapp".toList, image := "myorg/webapp:latest".toList,
    status := "Up 2 hours".toList, ports := [("8080".toList, "80".toList)] }

/-- A service displayed as `Zeta`, for the sort-order example. -/
def zetaService : DockerService :=
  { name := "Zeta".toList, image := "z".toList, status := "Up".toList,
    ports := [("1".toList, "1".toList)] }

/-- A service displayed as `alpha`, for the sort-order example. -/
def alphaService : DockerService :=
  { name := "alpha".toList, image := "a".toList, status := "Up".toList,
    ports := [("2".toList, "2".toList)] }

/-- A service displayed as `Beta`, for the sort-order example. -/
def betaService : DockerService :=
  { name := "Beta".toList, image := "b".toList, status := "Up".toList,
    ports := [("3".toList, "3".toList)] }

/-- First of two equal-display-name records used to exhibit sort
stability. -/
def tieRecord1 : ContainerRecord :=
  { name := "webapp".toList, image := "img/one".toList,
    status := "Up".toList, ports := "1:1/tcp".toList }

/-- Second of two equal-display-name records used to exhibit sort
stability. -/
def tieRecord2 : ContainerRecord :=
  { name := "webapp".toList, image := "img/two".toList,
    status := "Up".toList, ports := "2:2/tcp".toList }

/-- The service derived from `tieRecord1`. -/
def tieService1 : DockerService :=
  { name := "Webapp".toList, image := "img/one".toList,
    status := "Up".toList, ports := [("1".toList, "1".toList)] }

/-- The service derived from `tieRecord2`. -/
def tieService2 : DockerService :=
  { name := "Webapp".toList, image := "img/two".toList,
    status := "Up".toList, ports := [("2".toList, "2".toList)] }

/-! ### Helper lemmas -/

theorem consHead_ne_nil (c : Char) (L : List Str) : consHead c L ≠ [] := by
  cases L <;> simp [consHead]

theorem mem_consHead {w : Str} {c : Char} {L : List Str} (h : w ∈ consHead c L) :
    (L = [] ∧ w = [c]) ∨ (∃ x t, L = x :: t ∧ (w = c :: x ∨ w ∈ t)) := by
  cases L with
  | nil =>
    simp only [consHead, List.mem_singleton] at h
    exact Or.inl ⟨rfl, h⟩
  | cons x t =>
    simp only [consHead, List.mem_cons] at h
    exact Or.inr ⟨x, t, rfl, h⟩

theorem takeWhile_of_all {p : Char → Bool} : ∀ {l : Str}, l.all p = true → l.takeWhile p = l
  | [], _ => rfl
  | c :: l, h => by
    rw [List.all_cons, Bool.and_eq_true] at h
    rw [List.takeWhile_cons, if_pos h.1, takeWhile_of_all h.2]

theorem takeWhile_append_of_all {p : Char → Bool} {x : Char} (hx : p x = false) :
    ∀ {l : Str} (y : Str), l.all p = true → (l ++ x :: y).takeWhile p = l
  | [], y, _ => by simp [List.takeWhile_cons, hx]
  | c :: l, y, h => by
    rw [List.all_cons, Bool.and_eq_true] at h
    rw [List.cons_append, List.takeWhile_cons, if_pos h.1,
      takeWhile_append_of_all hx y h.2]

theorem dropWhile_eq_self_of_all {p : Char → Bool} {s : Str}
    (h : s.all (fun c => !(p c)) = true) : s.dropWhile p = s := by
  cases s with
  | nil => rfl
  | cons c t =>
    rw [List.all_cons, Bool.and_eq_true] at h
    rw [List.dropWhile_cons, if_neg]
    simp only [Bool.not_eq_true'] at h
    simp [h.1]

theorem pyStrip_eq_self {s : Str} (h : s.all (fun c => !(isWS c)) = true) :
    pyStrip s = s := by
  unfold pyStrip
  rw [dropWhile_eq_self_of_all h,
    dropWhile_eq_self_of_all (by rw [List.all_reverse]; exact h),
    List.reverse_reverse]

theorem pyStrip_cons_ws (s : Str) : pyStrip (' ' :: s) = pyStrip s := by
  unfold pyStrip
  rw [List.dropWhile_cons, if_pos (by decide)]

theorem ws_cases {c : Char} (h : isWS c = true) :
    c = ' ' ∨ c = '\t' ∨ c = '\r' ∨ c = '\n' := by
  simpa [isWS, Char.isWhitespace, Bool.or_eq_true, decide_eq_true_eq, or_assoc] using h

theorem isDigit_not_ws {c : Char} (h : c.isDigit = true) : isWS c = false := by
  cases hw : isWS c
  · rfl
  · rcases ws_cases hw with h1 | h1 | h1 | h1 <;> subst h1 <;> exact absurd h (by decide)

theorem alnum_not_ws {c : Char} (h : isAlnum c = true) : isWS c = false := by
  cases hw : isWS c
  · rfl
  · rcases ws_cases hw with h1 | h1 | h1 | h1 <;> subst h1 <;> exact absurd h (by decide)

theorem isDigit_ne {c : Char} (h : c.isDigit = true) (d : Char)
    (hd : d.isDigit = false) : c ≠ d := by
  intro he
  subst he
  rw [h] at hd
  cases hd

theorem containsChar_eq_false_iff {c : Char} :
    ∀ {s : Str}, containsChar c s = false ↔ ∀ x ∈ s, x ≠ c
  | [] => by simp [containsChar]
  | x :: s => by
    rw [containsChar]
    by_cases hx : x = c
    · simp [hx]
    · simp only [if_neg hx, containsChar_eq_false_iff, List.mem_cons]
      constructor
      · rintro h y (rfl | hy)
        · exact hx
        · exact h y hy
      · intro h y hy
        exact h y (Or.inr hy)

theorem splitOnChar_of_not_contains {c : Char} :
    ∀ {s : Str}, containsChar c s = false → splitOnChar c s = [s]
  | [], _ => rfl
  | x :: s, h => by
    rw [containsChar] at h
    by_cases hx : x = c
    · rw [if_pos hx] at h; cases h
    · rw [if_neg hx] at h
      rw [splitOnChar, if_neg hx, splitOnChar_of_not_contains h]
      rfl

theorem splitOnChar_append {c : Char} :
    ∀ {a : Str} (t : Str), containsChar c a = false →
      splitOnChar c (a ++ c :: t) = a :: splitOnChar c t
  | [], t, _ => by rw [List.nil_append, splitOnChar, if_pos rfl]
  | x :: a, t, h => by
    rw [containsChar] at h
    by_cases hx : x = c
    · rw [if_pos hx] at h; cases h
    · rw [if_neg hx] at h
      rw [List.cons_append, splitOnChar, if_neg hx, splitOnChar_append t h]
      rfl

theorem containsArrow_arrow : ∀ (x y : Str), containsArrow (x ++ '-' :: '>' :: y) = true
  | [], y => by simp [containsArrow]
  | [c], y => by
    simp only [List.cons_append, List.nil_append, containsArrow]
    split
    · rfl
    · simp [containsArrow]
  | c :: e :: x, y => by
    simp only [List.cons_append, containsArrow]
    split
    · rfl
    · exact containsArrow_arrow (e :: x) y

theorem containsArrow_of_no_gt : ∀ {s : Str}, (∀ c ∈ s, c ≠ '>') → containsArrow s = false
  | [], _ => rfl
  | [_], _ => rfl
  | c :: d :: t, h => by
    rw [containsArrow, if_neg, containsArrow_of_no_gt]
    · intro x hx
      exact h x (List.mem_cons_of_mem c hx)
    · rintro ⟨-, rfl⟩
      exact h '>' (List.mem_cons_of_mem c (List.mem_cons_self _ _)) rfl

theorem containsArrow_append_false :
    ∀ {a : Str} (b : Str), containsArrow a = false → containsArrow b = false →
      (a.getLast? = some '-' → b.head? = some '>' → False) →
      containsArrow (a ++ b) = false
  | [], b, _, hb, _ => hb
  | [c], b, _, hb, hab => by
    cases b with
    | nil => rfl
    | cons d t =>
      rw [List.singleton_append, containsArrow, if_neg, hb]
      rintro ⟨rfl, rfl⟩
      exact hab rfl rfl
  | c :: e :: a, b, ha, hb, hab => by
    rw [containsArrow] at ha
    rw [List.cons_append, List.cons_append, containsArrow]
    split
    · rw [if_pos (by assumption)] at ha
      cases ha
    · have hne : ¬(c = '-' ∧ e = '>') := by assumption
      rw [if_neg hne] at ha
      rw [← List.cons_append]
      exact containsArrow_append_false b ha hb (by simpa using hab)

theorem splitArrow_of_not_contains : ∀ {s : Str}, containsArrow s = false → splitArrow s = [s]
  | [], _ => rfl
  | [_], _ => rfl
  | c :: d :: t, h => by
    rw [containsArrow] at h
    rw [splitArrow]
    split
    · rw [if_pos (by assumption)] at h
      cases h
    · have hne : ¬(c = '-' ∧ d = '>') := by assumption
      rw [if_neg hne] at h
      rw [splitArrow_of_not_contains h]
      rfl

theorem splitArrow_append : ∀ (x y : Str), containsArrow x = false →
    splitArrow (x ++ '-' :: '>' :: y) = x :: splitArrow y
  | [], y, _ => by
    rw [List.nil_append, splitArrow, if_pos ⟨rfl, rfl⟩]
  | [c], y, _ => by
    rw [List.singleton_append, splitArrow, if_neg (by rintro ⟨-, h⟩; cases h)]
    rw [splitArrow, if_pos ⟨rfl, rfl⟩]
    rfl
  | c :: e :: x, y, h => by
    rw [containsArrow] at h
    rw [List.cons_append, List.cons_append, splitArrow]
    split
    · rw [if_pos (by assumption)] at h
      cases h
    · have hne : ¬(c = '-' ∧ e = '>') := by assumption
      rw [if_neg hne] at h
      rw [← List.cons_append, splitArrow_append (e :: x) y h]
      rfl

theorem searchColonDigits_append : ∀ {iface : Str} (host : Str),
    colonDigitFree iface = true → digitLead host = true → host.all Char.isDigit = true →
    searchColonDigits (iface ++ ':' :: host) = some host
  | [], host, _, hd, hall => by
    rw [List.nil_append, searchColonDigits, if_pos ⟨rfl, hd⟩, takeWhile_of_all hall]
  | [c], host, _, hd, hall => by
    rw [List.singleton_append, searchColonDigits, if_neg]
    · exact @searchColonDigits_append [] host rfl hd hall
    · rintro ⟨-, hdl⟩
      simp [digitLead] at hdl
  | c :: e :: iface, host, hfree, hd, hall => by
    rw [colonDigitFree] at hfree
    rw [List.cons_append, searchColonDigits, if_neg]
    · exact searchColonDigits_append host (by
        split at hfree
        · cases hfree
        · exact hfree) hd hall
    · rintro ⟨rfl, hdl⟩
      rw [if_pos ⟨rfl, by simpa [digitLead] using hdl⟩] at hfree
      cases hfree

theorem searchDigits_prefix {cont : Str} (rest : Str) (h : digitsStr cont = true)
    (hr : digitLead rest = false) : searchDigits (cont ++ rest) = some cont := by
  rw [digitsStr, Bool.and_eq_true] at h
  obtain ⟨hne, hall⟩ := h
  cases cont with
  | nil => simp [List.isEmpty] at hne
  | cons d t =>
    rw [List.all_cons, Bool.and_eq_true] at hall
    rw [List.cons_append, searchDigits, if_pos hall.1]
    congr 1
    rw [List.cons.injEq]
    refine ⟨rfl, ?_⟩
    cases rest with
    | nil => rw [List.append_nil, takeWhile_of_all hall.2]
    | cons x y =>
      rw [takeWhile_append_of_all _ y hall.2]
      simpa [digitLead] using hr

theorem digitsStr_digitLead {s : Str} (h : digitsStr s = true) : digitLead s = true := by
  rw [digitsStr, Bool.and_eq_true] at h
  cases s with
  | nil => simp [List.isEmpty] at h
  | cons c t =>
    rw [digitLead]
    have := h.2
    rw [List.all_cons, Bool.and_eq_true] at this
    exact this.1

theorem digits_no_gt {s : Str} (h : s.all Char.isDigit = true) : ∀ c ∈ s, c ≠ '>' := by
  rw [List.all_eq_true] at h
  intro c hc
  exact isDigit_ne (h c hc) '>' (by decide)

theorem digits_not_ws {s : Str} (h : s.all Char.isDigit = true) :
    s.all (fun c => !(isWS c)) = true := by
  rw [List.all_eq_true] at h ⊢
  intro c hc
  rw [Bool.not_eq_true', isDigit_not_ws (h c hc)]

/-- The clause parser is a function of the stripped clause only. -/
theorem parseClause_strip_congr {a b : Str} (h : pyStrip a = pyStrip b) :
    parseClause a = parseClause b := by
  unfold parseClause
  rw [h]

theorem parseClause_cons_ws (m : Str) : parseClause (' ' :: m) = parseClause m :=
  parseClause_strip_congr (pyStrip_cons_ws m)

/-- The main single-clause correctness lemma: on a well-formed explicit
clause the parser emits exactly the clause's host and container ports. -/
theorem parseClause_specArrowClause {iface host cont proto : Str}
    (hi : goodIface iface = true) (hh : digitsStr host = true)
    (hc : digitsStr cont = true) (hp : goodProto proto = true) :
    parseClause (specArrowClause iface host cont proto) = some (host, cont) := by
  rw [goodIface, Bool.and_eq_true, Bool.and_eq_true] at hi
  obtain ⟨⟨hicdf, hiarrow⟩, hiall⟩ := hi
  rw [Bool.not_eq_true'] at hiarrow
  rw [goodProto, Bool.and_eq_true] at hp
  obtain ⟨hparrow, hpall⟩ := hp
  rw [Bool.not_eq_true'] at hparrow
  have hhd : host.all Char.isDigit = true := by
    rw [digitsStr, Bool.and_eq_true] at hh; exact hh.2
  have hcd : cont.all Char.isDigit = true := by
    rw [digitsStr, Bool.and_eq_true] at hc; exact hc.2
  have hiallws : iface.all (fun c => !(isWS c)) = true := by
    rw [List.all_eq_true] at hiall ⊢
    intro c hcm
    exact (Bool.and_eq_true _ _ |>.mp (hiall c hcm)).2
  have hpallws : proto.all (fun c => !(isWS c)) = true := by
    rw [List.all_eq_true] at hpall ⊢
    intro c hcm
    exact (Bool.and_eq_true _ _ |>.mp (hpall c hcm)).2
  have hclause : specArrowClause iface host cont proto =
      (iface ++ ':' :: host) ++ '-' :: '>' :: (cont ++ '/' :: proto) := by
    simp [specArrowClause]
  have hLnws : (iface ++ ':' :: host).all (fun c => !(isWS c)) = true := by
    rw [List.all_append, Bool.and_eq_true, List.all_cons, Bool.and_eq_true]
    exact ⟨hiallws, by decide, digits_not_ws hhd⟩
  have hRnws : (cont ++ '/' :: proto).all (fun c => !(isWS c)) = true := by
    rw [List.all_append, Bool.and_eq_true, List.all_cons, Bool.and_eq_true]
    exact ⟨digits_not_ws hcd, by decide, hpallws⟩
  have hstrip : pyStrip (specArrowClause iface host cont proto) =
      specArrowClause iface host cont proto := by
    apply pyStrip_eq_self
    rw [hclause, List.all_append, Bool.and_eq_true, List.all_cons, Bool.and_eq_true,
      List.all_cons, Bool.and_eq_true]
    exact ⟨hLnws, by decide, by decide, hRnws⟩
  have hLarrow : containsArrow (iface ++ ':' :: host) = false := by
    apply containsArrow_append_false _ hiarrow
    · apply containsArrow_of_no_gt
      intro c hcm
      rcases List.mem_cons.mp hcm with rfl | hcm
      · decide
      · exact digits_no_gt hhd c hcm
    · intro _ hhead
      simp at hhead
  have hRarrow : containsArrow (cont ++ '/' :: proto) = false := by
    apply containsArrow_append_false
    · exact containsArrow_of_no_gt (digits_no_gt hcd)
    · exact @containsArrow_append_false ['/'] proto rfl hparrow
        (by intro hlast; simp at hlast)
    · intro hlast _
      have hm := List.mem_of_getLast?_eq_some hlast
      rw [List.all_eq_true] at hcd
      exact absurd (hcd _ hm) (by decide)
  have harrow : containsArrow (specArrowClause iface host cont proto) = true := by
    rw [hclause]
    exact containsArrow_arrow _ _
  have hsplit : splitArrow (specArrowClause iface host cont proto) =
      [iface ++ ':' :: host, cont ++ '/' :: proto] := by
    rw [hclause, splitArrow_append _ _ hLarrow, splitArrow_of_not_contains hRarrow]
  have hsearchL : searchColonDigits (pyStrip (iface ++ ':' :: host)) = some host := by
    rw [pyStrip_eq_self hLnws]
    exact searchColonDigits_append host hicdf (digitsStr_digitLead hh) hhd
  have hsearchR : searchDigits (pyStrip (cont ++ '/' :: proto)) = some cont := by
    rw [pyStrip_eq_self hRnws]
    exact searchDigits_prefix _ hc (by rw [digitLead]; decide)
  unfold parseClause
  rw [hstrip, if_pos harrow, hsplit]
  dsimp only []
  rw [hsearchL, hsearchR]

theorem specArrowClause_ne_nil (iface host cont proto : Str) :
    specArrowClause iface host cont proto ≠ [] := by
  cases iface <;> simp [specArrowClause]

theorem specArrowClause_comma_free {iface host cont proto : Str}
    (hi : goodIface iface = true) (hh : digitsStr host = true)
    (hc : digitsStr cont = true) (hp : goodProto proto = true) :
    containsChar ',' (specArrowClause iface host cont proto) = false := by
  rw [goodIface, Bool.and_eq_true, Bool.and_eq_true] at hi
  rw [goodProto, Bool.and_eq_true] at hp
  rw [digitsStr, Bool.and_eq_true] at hh hc
  have hif := hi.2
  have hpf := hp.2
  rw [List.all_eq_true] at hif hpf
  rw [containsChar_eq_false_iff]
  intro x hx
  simp only [specArrowClause, List.mem_append, List.mem_cons] at hx
  rcases hx with hx | rfl | hx | rfl | rfl | hx | rfl | hx
  · have := (Bool.and_eq_true _ _ |>.mp (hif x hx)).1
    simpa using this
  · decide
  · exact isDigit_ne (List.all_eq_true.mp hh.2 x hx) ',' (by decide)
  · decide
  · decide
  · exact isDigit_ne (List.all_eq_true.mp hc.2 x hx) ',' (by decide)
  · decide
  · have := (Bool.and_eq_true _ _ |>.mp (hpf x hx)).1
    simpa using this

theorem joinWith_cons_ne_nil {m : Str} (hm : m ≠ []) (sep : Str) (ms : List Str) :
    joinWith sep (m :: ms) ≠ [] := by
  cases ms with
  | nil => exact hm
  | cons m' ms => simp [joinWith, hm]

theorem splitOnChar_joinWith : ∀ (m : Str) (ms : List Str),
    containsChar ',' m = false → (∀ x ∈ ms, containsChar ',' x = false) →
    splitOnChar ',' (joinWith [',', ' '] (m :: ms)) =
      m :: ms.map (fun x => ' ' :: x)
  | m, [], h, _ => by
    rw [joinWith, splitOnChar_of_not_contains h]
    rfl
  | m, m' :: ms, h, hall => by
    rw [show joinWith [',', ' '] (m :: m' :: ms) =
        m ++ [',', ' '] ++ joinWith [',', ' '] (m' :: ms) from rfl,
      show m ++ [',', ' '] ++ joinWith [',', ' '] (m' :: ms) =
        m ++ ',' :: ' ' :: joinWith [',', ' '] (m' :: ms) from by simp,
      splitOnChar_append _ h, splitOnChar, if_neg (by decide),
      splitOnChar_joinWith m' ms (hall m' (by simp)) (fun x hx => hall x (by simp [hx]))]
    rfl

theorem filterMap_ws_clauses :
    ∀ (cs : List (Str × Str × Str × Str)),
    (∀ q ∈ cs, goodIface q.1 = true ∧ digitsStr q.2.1 = true ∧
      digitsStr q.2.2.1 = true ∧ goodProto q.2.2.2 = true) →
    List.filterMap parseClause
        (cs.map (fun q => ' ' :: specArrowClause q.1 q.2.1 q.2.2.1 q.2.2.2)) =
      cs.map (fun q => (q.2.1, q.2.2.1))
  | [], _ => rfl
  | q :: cs, hgood => by
    obtain ⟨h1, h2, h3, h4⟩ := hgood q (List.mem_cons_self _ _)
    rw [List.map_cons, List.filterMap_cons_some
        (by rw [parseClause_cons_ws]; exact parseClause_specArrowClause h1 h2 h3 h4),
      filterMap_ws_clauses cs (fun x hx => hgood x (List.mem_cons_of_mem _ hx)),
      List.map_cons]

/-- The multi-clause universal: on a comma-joined list of well-formed
explicit clauses, `parse_ports` emits exactly one pair per clause, the
clause's host and container ports. -/
theorem parse_ports_goodClauses (cs : List (Str × Str × Str × Str))
    (hgood : ∀ q ∈ cs, goodIface q.1 = true ∧ digitsStr q.2.1 = true ∧
      digitsStr q.2.2.1 = true ∧ goodProto q.2.2.2 = true) :
    parse_ports (joinWith [',', ' ']
        (cs.map (fun q => specArrowClause q.1 q.2.1 q.2.2.1 q.2.2.2))) =
      cs.map (fun q => (q.2.1, q.2.2.1)) := by
  cases cs with
  | nil => rfl
  | cons q cs =>
    obtain ⟨h1, h2, h3, h4⟩ := hgood q (List.mem_cons_self _ _)
    have hrest : ∀ x ∈ cs, goodIface x.1 = true ∧ digitsStr x.2.1 = true ∧
        digitsStr x.2.2.1 = true ∧ goodProto x.2.2.2 = true :=
      fun x hx => hgood x (List.mem_cons_of_mem _ hx)
    rw [List.map_cons, parse_ports,
      if_neg (joinWith_cons_ne_nil (specArrowClause_ne_nil _ _ _ _) _ _),
      splitOnChar_joinWith _ _ (specArrowClause_comma_free h1 h2 h3 h4)
        (by
          intro x hx
          rw [List.mem_map] at hx
          obtain ⟨p, hp, rfl⟩ := hx
          obtain ⟨g1, g2, g3, g4⟩ := hrest p hp
          exact specArrowClause_comma_free g1 g2 g3 g4),
      List.filterMap_cons_some (parseClause_specArrowClause h1 h2 h3 h4),
      show List.map (fun x => ' ' :: x)
          (List.map (fun p => specArrowClause p.1 p.2.1 p.2.2.1 p.2.2.2) cs) =
        List.map (fun p => ' ' :: specArrowClause p.1 p.2.1 p.2.2.1 p.2.2.2) cs from by
          rw [List.map_map]; rfl,
      filterMap_ws_clauses cs hrest, List.map_cons]

theorem all_takeWhile (p : Char → Bool) : ∀ l : Str, (l.takeWhile p).all p = true
  | [] => rfl
  | c :: l => by
    rw [List.takeWhile_cons]
    split
    · rw [List.all_cons, Bool.and_eq_true]
      exact ⟨by assumption, all_takeWhile p l⟩
    · rfl

theorem searchColonDigits_digits : ∀ {s h : Str}, searchColonDigits s = some h →
    h ≠ [] ∧ h.all Char.isDigit = true
  | [], h, e => by cases e
  | c :: rest, h, e => by
    rw [searchColonDigits] at e
    split at e
    · rename_i hcond
      injection e with e
      subst e
      refine ⟨?_, all_takeWhile _ _⟩
      cases rest with
      | nil => simp [digitLead] at hcond
      | cons d t =>
        rw [List.takeWhile_cons, if_pos (by simpa [digitLead] using hcond.2)]
        simp
    · exact searchColonDigits_digits e

theorem searchDigits_digits : ∀ {s h : Str}, searchDigits s = some h →
    h ≠ [] ∧ h.all Char.isDigit = true
  | [], h, e => by cases e
  | c :: rest, h, e => by
    rw [searchDigits] at e
    split at e
    · rename_i hcond
      injection e with e
      subst e
      refine ⟨by simp, ?_⟩
      rw [List.all_cons, Bool.and_eq_true]
      exact ⟨hcond, all_takeWhile _ _⟩
    · exact searchDigits_digits e

/-- Inversion of the explicit-mapping branch of the clause parser. -/
theorem parseClause_arrow_inv {m h c : Str} (e : parseClause m = some (h, c))
    (ha : containsArrow (pyStrip m) = true) :
    ∃ l r, splitArrow (pyStrip m) = [l, r] ∧
      searchColonDigits (pyStrip l) = some h ∧ searchDigits (pyStrip r) = some c := by
  unfold parseClause at e
  rw [if_pos ha] at e
  split at e
  · rename_i l r heq
    split at e
    · rename_i h' c' hl hr
      injection e with e
      rw [Prod.mk.injEq] at e
      obtain ⟨rfl, rfl⟩ := e
      exact ⟨l, r, heq, hl, hr⟩
    · cases e
  · cases e

theorem lexLe_refl : ∀ s : Str, lexLe s s = true
  | [] => rfl
  | a :: as => by
    rw [lexLe, if_pos rfl]
    exact lexLe_refl as

theorem lexLe_total : ∀ x y : Str, (lexLe x y || lexLe y x) = true
  | [], y => by rw [lexLe]; rfl
  | a :: as, [] => by rw [lexLe]; rfl
  | a :: as, b :: bs => by
    by_cases hab : a = b
    · subst hab
      rw [lexLe, if_pos rfl, lexLe, if_pos rfl]
      exact lexLe_total as bs
    · rw [lexLe, if_neg hab, lexLe, if_neg (Ne.symm hab)]
      rcases lt_or_gt_of_ne hab with hlt | hlt
      · rw [decide_eq_true hlt, Bool.true_or]
      · rw [decide_eq_true hlt, Bool.or_true]

theorem lexLe_trans : ∀ {x y z : Str}, lexLe x y = true → lexLe y z = true → lexLe x z = true
  | [], _, _, _, _ => rfl
  | _ :: _, [], _, h1, _ => by rw [lexLe] at h1; cases h1
  | _ :: _, _ :: _, [], _, h2 => by rw [lexLe] at h2; cases h2
  | a :: as, b :: bs, c :: cs, h1, h2 => by
    rw [lexLe] at h1 h2 ⊢
    by_cases hab : a = b <;> by_cases hbc : b = c
    · subst hab; subst hbc
      rw [if_pos rfl] at h1 h2 ⊢
      exact lexLe_trans h1 h2
    · subst hab
      rw [if_pos rfl] at h1
      rw [if_neg hbc] at h2 ⊢
      exact h2
    · subst hbc
      rw [if_pos rfl] at h2
      rw [if_neg hab] at h1 ⊢
      exact h1
    · rw [if_neg hab] at h1
      rw [if_neg hbc] at h2
      have hac : a < c := lt_trans (of_decide_eq_true h1) (of_decide_eq_true h2)
      rw [if_neg (ne_of_lt hac), decide_eq_true hac]

theorem serviceLe_total (a b : DockerService) : (serviceLe a b || serviceLe b a) = true :=
  lexLe_total _ _

theorem serviceLe_trans (a b c : DockerService) :
    serviceLe a b → serviceLe b c → serviceLe a c :=
  fun h1 h2 => lexLe_trans h1 h2

theorem wordsWS_mem_ne_nil : ∀ {s w : Str}, w ∈ wordsWS s → w ≠ []
  | [], w, h => by cases h
  | [c], w, h => by
    rw [wordsWS] at h
    split at h
    · cases h
    · rw [List.mem_singleton] at h
      subst h
      simp
  | c :: d :: rest, w, h => by
    rw [wordsWS] at h
    split at h
    · exact wordsWS_mem_ne_nil h
    · split at h
      · rcases List.mem_cons.mp h with rfl | h
        · simp
        · exact wordsWS_mem_ne_nil h
      · rcases mem_consHead h with ⟨-, rfl⟩ | ⟨x, t, hxt, rfl | hmem⟩
        · simp
        · simp
        · exact wordsWS_mem_ne_nil (hxt ▸ List.mem_cons_of_mem x hmem)

theorem wordsWS_ne_nil : ∀ {s : Str}, s.any (fun ch => !(isWS ch)) = true → wordsWS s ≠ []
  | [], h => by cases h
  | [c], h => by
    rw [List.any_cons] at h
    rw [wordsWS, if_neg]
    · simp
    · simp only [List.any_nil, Bool.or_false, Bool.not_eq_true'] at h
      simp [h]
  | c :: d :: rest, h => by
    rw [wordsWS]
    split
    · rename_i hc
      apply wordsWS_ne_nil
      rw [List.any_cons] at h
      rcases Bool.or_eq_true _ _ |>.mp h with hh | hh
      · rw [hc] at hh
        cases hh
      · exact hh
    · split
      · simp
      · exact consHead_ne_nil _ _

theorem joinWith_cons_append (sep w : Str) (L : List Str) :
    ∃ X, joinWith sep (w :: L) = w ++ X := by
  cases L with
  | nil => exact ⟨[], (List.append_nil w).symm⟩
  | cons x t =>
    exact ⟨sep ++ joinWith sep (x :: t), by
      rw [show joinWith sep (w :: x :: t) = w ++ sep ++ joinWith sep (x :: t) from rfl,
        List.append_assoc]⟩

theorem joinWith_ne_nil {L : List Str} (hL : L ≠ []) (hw : ∀ w ∈ L, w ≠ []) (sep : Str) :
    joinWith sep L ≠ [] := by
  cases L with
  | nil => exact absurd rfl hL
  | cons w t =>
    obtain ⟨X, hX⟩ := joinWith_cons_append sep w t
    rw [hX]
    have := hw w (List.mem_cons_self _ _)
    cases w with
    | nil => exact absurd rfl this
    | cons c u => simp

theorem pyCapitalize_ne_nil {w : Str} (h : w ≠ []) : pyCapitalize w ≠ [] := by
  cases w with
  | nil => exact absurd rfl h
  | cons c t => simp [pyCapitalize]

theorem titleJoin_ne_nil {s : Str} (h : s.any (fun ch => !(isWS ch)) = true) :
    joinWith [' '] ((wordsWS s).map pyCapitalize) ≠ [] := by
  refine joinWith_ne_nil ?_ ?_ [' ']
  · simp only [ne_eq, List.map_eq_nil_iff]
    exact wordsWS_ne_nil h
  · intro w hw
    rw [List.mem_map] at hw
    obtain ⟨x, hx, rfl⟩ := hw
    exact pyCapitalize_ne_nil (wordsWS_mem_ne_nil hx)

theorem splitNAGo_mem_alnum : ∀ {b : Bool} {s w : Str}, w ∈ splitNAGo b s →
    w.all isAlnum = true
  | _, [], w, h => by
    rw [splitNAGo, List.mem_singleton] at h
    subst h
    rfl
  | _, c :: rest, w, h => by
    rw [splitNAGo] at h
    split at h
    · rename_i hc
      rcases mem_consHead h with ⟨-, rfl⟩ | ⟨x, t, hxt, rfl | hmem⟩
      · simp [hc]
      · rw [List.all_cons, Bool.and_eq_true]
        exact ⟨hc, splitNAGo_mem_alnum (hxt ▸ List.mem_cons_self x t)⟩
      · exact splitNAGo_mem_alnum (hxt ▸ List.mem_cons_of_mem x hmem)
    · split at h
      · exact splitNAGo_mem_alnum h
      · rcases List.mem_cons.mp h with rfl | h
        · rfl
        · exact splitNAGo_mem_alnum h

theorem dedupe_mem_aux : ∀ (ws acc : List Str) {w : Str},
    w ∈ ws.foldl (fun acc w =>
      if w ≠ [] ∧ ¬ ((acc.map lowerStr).contains (lowerStr w)) then acc ++ [w] else acc) acc →
    w ∈ acc ∨ (w ∈ ws ∧ w ≠ [])
  | [], acc, w, h => Or.inl h
  | x :: ws, acc, w, h => by
    rw [List.foldl_cons] at h
    rcases dedupe_mem_aux ws _ h with hacc | hrec
    · split at hacc
      · rename_i hcond
        rcases List.mem_append.mp hacc with hm | hm
        · exact Or.inl hm
        · rw [List.mem_singleton] at hm
          subst hm
          exact Or.inr ⟨List.mem_cons_self _ _, hcond.1⟩
      · exact Or.inl hacc
    · exact Or.inr ⟨List.mem_cons_of_mem _ hrec.1, hrec.2⟩

theorem dedupeWords_mem {ws : List Str} {w : Str} (h : w ∈ dedupeWords ws) :
    w ∈ ws ∧ w ≠ [] := by
  rcases dedupe_mem_aux ws [] h with h0 | h1
  · cases h0
  · exact h1

theorem titleSource_any {L : List Str}
    (hmem : ∀ w ∈ L, w ≠ [] ∧ w.all isAlnum = true)
    (hne : joinWith [' '] L ≠ []) :
    (joinWith [' '] L).any (fun ch => !(isWS ch)) = true := by
  cases L with
  | nil => exact absurd rfl hne
  | cons w rest =>
    obtain ⟨hw, hall⟩ := hmem w (List.mem_cons_self _ _)
    obtain ⟨X, hX⟩ := joinWith_cons_append [' '] w rest
    rw [hX, List.any_append, Bool.or_eq_true]
    left
    cases w with
    | nil => exact absurd rfl hw
    | cons ch u =>
      rw [List.all_cons, Bool.and_eq_true] at hall
      rw [List.any_cons, Bool.or_eq_true]
      left
      rw [Bool.not_eq_true', alnum_not_ws hall.1]

theorem cleaned_core_any {name : Str} (h : cleaned_core name ≠ []) :
    (cleaned_core name).any (fun ch => !(isWS ch)) = true := by
  rw [cleaned_core] at h ⊢
  apply titleSource_any _ h
  intro w hw
  have hm := dedupeWords_mem hw
  exact ⟨hm.2, splitNAGo_mem_alnum hm.1⟩

/-- Whenever the base image name contains a non-whitespace character, the
normalizer's output is non-empty. -/
theorem clean_container_name_ne_nil {name image : Str}
    (himg : (image_base image).any (fun ch => !(isWS ch)) = true) :
    clean_container_name name image ≠ [] := by
  simp only [clean_container_name]
  split
  · exact titleJoin_ne_nil himg
  · rename_i hcond
    rw [not_or] at hcond
    exact titleJoin_ne_nil (cleaned_core_any hcond.2)

/-! ### Evaluation machinery for the generic-term stripping loop

Kernel reduction of the 159-term fold in one go is too deep, so concrete
values of `stripGenericTerms` are established by evaluating the first ten
terms and then showing the intermediate result is a fixed point of every
remaining term. -/

theorem foldl_termStep_fixed {m : Str} : ∀ {ts : List Str},
    ts.all (fun t => termStep m t == m) = true → List.foldl termStep m ts = m
  | [], _ => rfl
  | t :: ts, h => by
    rw [List.all_cons, Bool.and_eq_true, beq_iff_eq] at h
    rw [List.foldl_cons, h.1]
    exact foldl_termStep_fixed h.2

theorem stripGenericTerms_eval {s m : Str}
    (h1 : List.foldl termStep s (generic_terms.take 10) = m)
    (h2 : (generic_terms.drop 10).all (fun t => termStep m t == m) = true) :
    stripGenericTerms s = m := by
  rw [stripGenericTerms, ← List.take_append_drop 10 generic_terms,
    List.foldl_append, h1]
  exact foldl_termStep_fixed h2

set_option maxRecDepth 16000 in
theorem cleanedCore_server1 : cleaned_core ("server-1".toList) = "1".toList := by
  have h : stripGenericTerms ("server-1".toList) = "1".toList :=
    stripGenericTerms_eval (by decide) (by decide)
  simp only [cleaned_core, lowerStr]
  rw [show (("server-1".toList).map Char.toLower) = "server-1".toList from by decide, h]
  decide

set_option maxRecDepth 16000 in
theorem cleanedCore_appweb : cleaned_core ("app-web".toList) = "web".toList := by
  have h : stripGenericTerms ("app-web".toList) = "web".toList :=
    stripGenericTerms_eval (by decide) (by decide)
  simp only [cleaned_core, lowerStr]
  rw [show (("app-web".toList).map Char.toLower) = "app-web".toList from by decide, h]
  decide

set_option maxRecDepth 16000 in
theorem cleanedCore_webapp : cleaned_core ("webapp".toList) = "webapp".toList := by
  have h : stripGenericTerms ("webapp".toList) = "webapp".toList :=
    stripGenericTerms_eval (by decide) (by decide)
  simp only [cleaned_core, lowerStr]
  rw [show (("webapp".toList).map Char.toLower) = "webapp".toList from by decide, h]
  decide

set_option maxRecDepth 16000 in
theorem cleanedCore_a : cleaned_core ("a".toList) = "a".toList := by
  have h : stripGenericTerms ("a".toList) = "a".toList :=
    stripGenericTerms_eval (by decide) (by decide)
  simp only [cleaned_core, lowerStr]
  rw [show (("a".toList).map Char.toLower) = "a".toList from by decide, h]
  decide

/-- On the name `server-1` the cleaned name collapses to `1`, so the
normalizer falls back to the image-derived name for every image. -/
theorem clean_server1 (image : Str) :
    clean_container_name ("server-1".toList) image =
      joinWith [' '] ((wordsWS (image_base image)).map pyCapitalize) := by
  simp only [clean_container_name]
  rw [cleanedCore_server1, if_pos (Or.inl (by decide))]

theorem clean_server1_nginx :
    clean_container_name ("server-1".toList) ("nginx:alpine".toList) = "Nginx".toList := by
  rw [clean_server1]
  decide

theorem clean_appweb_nginx :
    clean_container_name ("app-web".toList) ("nginx".toList) = "Web".toList := by
  simp only [clean_container_name]
  rw [cleanedCore_appweb]
  decide

theorem clean_a_empty : clean_container_name ("a".toList) ("".toList) = [] := by
  simp only [clean_container_name]
  rw [cleanedCore_a]
  decide

/-- The name `webapp` survives cleaning unchanged, so the display name is
`Webapp` for every image. -/
theorem clean_webapp_gen (image : Str) :
    clean_container_name ("webapp".toList) image = "Webapp".toList := by
  simp only [clean_container_name]
  rw [cleanedCore_webapp, if_neg (by decide)]
  decide

theorem clean_webapp :
    clean_container_name ("webapp".toList) ("myorg/webapp:latest".toList) = "Webapp".toList :=
  clean_webapp_gen _

/-- The catalog-builder loop body emits a record exactly when the record
survives both filters. -/
theorem mkService_isSome (c : ContainerRecord) :
    (mkService c).isSome = true ↔
      (is_database_container c.name c.image = false ∧ parse_ports c.ports ≠ []) := by
  simp only [mkService]
  split
  · rename_i hdb
    simp [hdb]
  · rename_i hdb
    rw [Bool.not_eq_true] at hdb
    split
    · rename_i hports
      simp [hdb, hports]
    · rename_i hports
      simp [hdb, hports]

theorem mkService_pg : mkService pgRecord = none := by
  simp only [mkService, pgRecord]
  rw [if_pos (by decide)]

theorem mkService_noports : mkService noPortsRecord = none := by
  simp only [mkService, noPortsRecord]
  rw [if_neg (by decide), if_pos (by decide)]

theorem mkService_web : mkService webRecord = some webService := by
  simp only [mkService, webRecord]
  rw [if_neg (by decide), if_neg (by decide)]
  rw [show parse_ports ("0.0.0.0:8080->80/tcp".toList) = [("8080".toList, "80".toList)]
      from by decide,
    clean_webapp]
  rfl

theorem mkService_tie1 : mkService tieRecord1 = some tieService1 := by
  simp only [mkService, tieRecord1]
  rw [if_neg (by decide), if_neg (by decide)]
  rw [show parse_ports ("1:1/tcp".toList) = [("1".toList, "1".toList)] from by decide,
    clean_webapp_gen]
  rfl

theorem mkService_tie2 : mkService tieRecord2 = some tieService2 := by
  simp only [mkService, tieRecord2]
  rw [if_neg (by decide), if_neg (by decide)]
  rw [show parse_ports ("2:2/tcp".toList) = [("2".toList, "2".toList)] from by decide,
    clean_webapp_gen]
  rfl

/-! ### Claims -/

/-- Claim C1, corrected: every pair emitted by a clause taken by the
explicit (`->`) branch consists of two non-empty digit strings, and a
clause from which either digit run cannot be extracted contributes
nothing; moreover every pair in the output of `parse_ports` originates
wholly from a single comma-separated clause. (The original claim also
asserted digit-strings for the shorthand branch, which the code
violates — see the counterexample.) -/
theorem claim_C1 :
    (∀ (m h c : Str), parseClause m = some (h, c) → containsArrow (pyStrip m) = true →
      h ≠ [] ∧ h.all Char.isDigit = true ∧ c ≠ [] ∧ c.all Char.isDigit = true) ∧
    (∀ (s : Str) (p : Str × Str), p ∈ parse_ports s →
      ∃ m, m ∈ splitOnChar ',' s ∧ parseClause m = some p) := by
  constructor
  · intro m h c he ha
    obtain ⟨l, r, _, hl, hr⟩ := parseClause_arrow_inv he ha
    obtain ⟨hne1, hd1⟩ := searchColonDigits_digits hl
    obtain ⟨hne2, hd2⟩ := searchDigits_digits hr
    exact ⟨hne1, hd1, hne2, hd2⟩
  · intro s p hp
    rw [parse_ports] at hp
    split at hp
    · cases hp
    · obtain ⟨m, hm, he⟩ := List.mem_filterMap.mp hp
      exact ⟨m, hm, he⟩

/-- Witness for C1: the explicit clause `0.0.0.0:8080->80/tcp` satisfies
both hypotheses and yields the digit pairs, and the shorthand string
`5432:5432/tcp` exhibits per-clause origin. -/
theorem claim_C1_witness :
    (parseClause ("0.0.0.0:8080->80/tcp".toList) = some ("8080".toList, "80".toList) ∧
      containsArrow (pyStrip ("0.0.0.0:8080->80/tcp".toList)) = true ∧
      ("8080".toList ≠ [] ∧ ("8080".toList).all Char.isDigit = true ∧
        "80".toList ≠ [] ∧ ("80".toList).all Char.isDigit = true)) ∧
    (("5432".toList, "5432".toList) ∈ parse_ports ("5432:5432/tcp".toList) ∧
      (∃ m, m ∈ splitOnChar ',' ("5432:5432/tcp".toList) ∧
        parseClause m = some ("5432".toList, "5432".toList))) :=
  ⟨⟨by decide, by decide,
    claim_C1.1 ("0.0.0.0:8080->80/tcp".toList) ("8080".toList) ("80".toList)
      (by decide) (by decide)⟩,
   ⟨by decide,
    claim_C1.2 ("5432:5432/tcp".toList) ("5432".toList, "5432".toList) (by decide)⟩⟩

/-- Counterexample to C1 as stated: the shorthand clause `abc:def/tcp`
emits the pair `("abc", "def")`, whose components are not digit
strings. -/
theorem claim_C1_counterexample :
    parse_ports ("abc:def/tcp".toList) = [("abc".toList, "def".toList)] ∧
    ("abc".toList).all Char.isDigit = false := by decide

/-- Claim C2, confirmed: the catalog-builder loop emits a service for a
record if and only if the classifier does not flag it and its port
string parses to at least one mapping; the catalog is a permutation of
the per-record emissions; and on the spec's three-record example exactly
the valid web application survives, with one port mapping. -/
theorem claim_C2 :
    (∀ c : ContainerRecord, (mkService c).isSome = true ↔
      (is_database_container c.name c.image = false ∧ parse_ports c.ports ≠ [])) ∧
    (∀ l : List ContainerRecord, (process_containers l).Perm (l.filterMap mkService)) ∧
    process_containers [pgRecord, noPortsRecord, webRecord] = [webService] ∧
    webService.ports.length = 1 := by
  refine ⟨mkService_isSome, ?_, ?_, by decide⟩
  · intro l
    exact List.mergeSort_perm _ _
  · rw [process_containers, List.filterMap_cons_none mkService_pg,
      List.filterMap_cons_none mkService_noports,
      List.filterMap_cons_some mkService_web, List.filterMap_nil,
      sortServices, List.mergeSort_singleton]

/-- Claim C3, corrected: for every comma-joined list of explicit clauses
`<iface>:<host>-><cont>/<proto>` whose interfaces contain no colon
immediately followed by a digit (IPv4, `[::]` and the empty interface
qualify; `[::1]` does not), the parser yields exactly one pair per
clause with the clause's host and container ports; the spec's concrete
examples hold as stated, and a `::`-prefixed clause is skipped. (The
original claim extended this to all bracketed IPv6 interfaces, which
fails — see the counterexample.) -/
theorem claim_C3 :
    (∀ (cs : List (Str × Str × Str × Str)),
      (∀ q ∈ cs, goodIface q.1 = true ∧ digitsStr q.2.1 = true ∧
        digitsStr q.2.2.1 = true ∧ goodProto q.2.2.2 = true) →
      parse_ports (joinWith [',', ' ']
          (cs.map (fun q => specArrowClause q.1 q.2.1 q.2.2.1 q.2.2.2))) =
        cs.map (fun q => (q.2.1, q.2.2.1))) ∧
    parse_ports ("0.0.0.0:8080->80/tcp, [::]:9090->90/tcp".toList) =
      [("8080".toList, "80".toList), ("9090".toList, "90".toList)] ∧
    parse_ports ("5432:5432/tcp".toList) = [("5432".toList, "5432".toList)] ∧
    parse_ports ("::".toList) = [] :=
  ⟨parse_ports_goodClauses, by decide, by decide, by decide⟩

/-- Witness for C3: the universal applied to the spec's own two clauses
(IPv4 and bare-bracket IPv6 interfaces). -/
theorem claim_C3_witness :
    (∀ q ∈ [("0.0.0.0".toList, ("8080".toList, ("80".toList, "tcp".toList))),
            ("[::]".toList, ("9090".toList, ("90".toList, "tcp".toList)))],
      goodIface q.1 = true ∧ digitsStr q.2.1 = true ∧
        digitsStr q.2.2.1 = true ∧ goodProto q.2.2.2 = true) ∧
    parse_ports (joinWith [',', ' ']
        (([("0.0.0.0".toList, ("8080".toList, ("80".toList, "tcp".toList))),
           ("[::]".toList, ("9090".toList, ("90".toList, "tcp".toList)))]).map
          (fun q => specArrowClause q.1 q.2.1 q.2.2.1 q.2.2.2))) =
      [("8080".toList, "80".toList), ("9090".toList, "90".toList)] :=
  ⟨by decide,
   claim_C3.1 [("0.0.0.0".toList, ("8080".toList, ("80".toList, "tcp".toList))),
               ("[::]".toList, ("9090".toList, ("90".toList, "tcp".toList)))] (by decide)⟩

/-- Counterexample to C3 as stated: the bracketed IPv6 interface `[::1]`
contains a digit after a colon, so the parser extracts host port `1`
instead of `9090`. -/
theorem claim_C3_counterexample :
    parse_ports ("[::1]:9090->90/tcp".toList) = [("1".toList, "90".toList)] ∧
    [("1".toList, "90".toList)] ≠ [("9090".toList, "90".toList)] := by decide

/-- Claim C4, corrected: for every clause the explicit branch emits, the
host port is the first digit run immediately preceded by a colon in the
stripped left segment, and the container port is the first digit run in
the stripped right segment. (The original claim described the host port
as the first digit run occurring anywhere in the left segment, which is
wrong — see the counterexample.) -/
theorem claim_C4 :
    ∀ (m h c : Str), parseClause m = some (h, c) → containsArrow (pyStrip m) = true →
      ∃ l r, splitArrow (pyStrip m) = [l, r] ∧
        searchColonDigits (pyStrip l) = some h ∧ searchDigits (pyStrip r) = some c :=
  fun _ _ _ he ha => parseClause_arrow_inv he ha

/-- Witness for C4: the clause `0.0.0.0:8080->80/tcp` satisfies both
hypotheses, and the characterization holds there. -/
theorem claim_C4_witness :
    parseClause ("0.0.0.0:8080->80/tcp".toList) = some ("8080".toList, "80".toList) ∧
    containsArrow (pyStrip ("0.0.0.0:8080->80/tcp".toList)) = true ∧
    (∃ l r, splitArrow (pyStrip ("0.0.0.0:8080->80/tcp".toList)) = [l, r] ∧
      searchColonDigits (pyStrip l) = some ("8080".toList) ∧
      searchDigits (pyStrip r) = some ("80".toList)) :=
  ⟨by decide, by decide,
   claim_C4 ("0.0.0.0:8080->80/tcp".toList) ("8080".toList) ("80".toList)
     (by decide) (by decide)⟩

/-- Counterexample to C4 as stated: on the clause `0.0.0.0:8080->80/tcp`
the first digit run occurring anywhere in the left segment
`0.0.0.0:8080` is `0`, yet the parser emits host port `8080`. -/
theorem claim_C4_counterexample :
    parse_ports ("0.0.0.0:8080->80/tcp".toList) = [("8080".toList, "80".toList)] ∧
    searchDigits ("0.0.0.0:8080".toList) = some ("0".toList) ∧
    some ("0".toList) ≠ some ("8080".toList) := by decide

/-- Claim C5, corrected: the classifier treats name and image
symmetrically by keyword containment, and on the spec's instances
`is_infra("myapp", "postgres:15")` is true and
`is_infra("webapp", "myorg/webapp:latest")` is false; but
`is_infra("mypg", "alpine")` is false, not true as claimed, since no
keyword occurs in either string — see the counterexample. -/
theorem claim_C5 :
    (∀ name image : Str,
      is_database_container name image = is_database_container image name) ∧
    is_database_container ("mypg".toList) ("alpine".toList) = false ∧
    is_database_container ("myapp".toList) ("postgres:15".toList) = true ∧
    is_database_container ("webapp".toList) ("myorg/webapp:latest".toList) = false := by
  refine ⟨?_, by decide, by decide, by decide⟩
  intro n i
  simp only [is_database_container]
  rw [Bool.eq_iff_iff, List.any_eq_true, List.any_eq_true]
  constructor <;> (rintro ⟨kw, hkw, h⟩; exact ⟨kw, hkw, by rwa [Bool.or_comm]⟩)

/-- Counterexample to C5 as stated: the spec asserts
`is_infra("mypg", "alpine")` is true, but no keyword of the classifier
occurs in `mypg` or `alpine`, so the code returns false. -/
theorem claim_C5_counterexample :
    is_database_container ("mypg".toList) ("alpine".toList) = false := by decide

/-- Claim C6, confirmed: the catalog is sorted ascending by the
case-folded display name; any key-sorted subsequence of the unsorted
emission order survives as a subsequence of the catalog (stability, so
equal keys keep their original relative order); and the concrete
display names `Zeta`, `alpha`, `Beta` sort to `alpha, Beta, Zeta`. -/
theorem claim_C6 :
    (∀ l : List ContainerRecord,
      (process_containers l).Pairwise (fun a b => serviceLe a b = true)) ∧
    (∀ (l : List ContainerRecord) (c : List DockerService),
      c.Pairwise (fun a b => serviceLe a b = true) →
      c.Sublist (l.filterMap mkService) → c.Sublist (process_containers l)) ∧
    sortServices [zetaService, alphaService, betaService] =
      [alphaService, betaService, zetaService] := by
  refine ⟨?_, ?_, ?_⟩
  · intro l
    exact List.sorted_mergeSort (fun a b c => serviceLe_trans a b c) serviceLe_total _
  · intro l c hp hs
    exact List.sublist_mergeSort (fun a b c => serviceLe_trans a b c) serviceLe_total hp hs
  · simp [sortServices, List.mergeSort, List.splitInTwo, List.splitAt, List.splitAt.go,
      List.merge, zetaService, alphaService, betaService, serviceLe, lexLe, lowerStr]

/-- Witness for C6: two records with equal display name `Webapp`; their
emission-order pair is key-sorted, is a sublist of the emissions, and
remains a sublist of the catalog. -/
theorem claim_C6_witness :
    ([tieService1, tieService2].Pairwise (fun a b => serviceLe a b = true)) ∧
    [tieService1, tieService2].Sublist ([tieRecord1, tieRecord2].filterMap mkService) ∧
    [tieService1, tieService2].Sublist (process_containers [tieRecord1, tieRecord2]) := by
  have hp : [tieService1, tieService2].Pairwise (fun a b => serviceLe a b = true) := by
    refine List.pairwise_cons.mpr ⟨?_, List.pairwise_singleton _ _⟩
    intro b hb
    rw [List.mem_singleton] at hb
    subst hb
    decide
  have hsub : [tieService1, tieService2].Sublist
      ([tieRecord1, tieRecord2].filterMap mkService) := by
    rw [List.filterMap_cons_some mkService_tie1, List.filterMap_cons_some mkService_tie2,
      List.filterMap_nil]
  exact ⟨hp, hsub, claim_C6.2.1 [tieRecord1, tieRecord2] [tieService1, tieService2] hp hsub⟩

/-- Claim C7, corrected: whenever the cleaned name has fewer than 3
characters the normalizer falls back to the title-cased base image name,
and `normalize("server-1", "nginx:alpine")` is `Nginx`; the output is
non-empty whenever the base image name contains a non-whitespace
character, but not for every input — an empty image yields an empty
display name, see the counterexample. -/
theorem claim_C7 :
    (∀ name image : Str, (image_base image).any (fun ch => !(isWS ch)) = true →
      clean_container_name name image ≠ []) ∧
    (∀ name image : Str, (cleaned_core name).length < 3 ∨ cleaned_core name = [] →
      clean_container_name name image =
        joinWith [' '] ((wordsWS (image_base image)).map pyCapitalize)) ∧
    clean_container_name ("server-1".toList) ("nginx:alpine".toList) = "Nginx".toList := by
  refine ⟨?_, ?_, clean_server1_nginx⟩
  · intro name image h
    exact clean_container_name_ne_nil h
  · intro name image h
    simp only [clean_container_name]
    rw [if_pos h]

/-- Witness for C7: on `("server-1", "nginx:alpine")` both hypotheses
hold concretely, the output is non-empty and equals the title-cased base
image name. -/
theorem claim_C7_witness :
    ((image_base ("nginx:alpine".toList)).any (fun ch => !(isWS ch)) = true) ∧
    clean_container_name ("server-1".toList) ("nginx:alpine".toList) ≠ [] ∧
    ((cleaned_core ("server-1".toList)).length < 3 ∨ cleaned_core ("server-1".toList) = []) ∧
    clean_container_name ("server-1".toList) ("nginx:alpine".toList) =
      joinWith [' '] ((wordsWS (image_base ("nginx:alpine".toList))).map pyCapitalize) :=
  ⟨by decide, claim_C7.1 ("server-1".toList) ("nginx:alpine".toList) (by decide),
   Or.inl (by rw [cleanedCore_server1]; decide),
   claim_C7.2.1 ("server-1".toList) ("nginx:alpine".toList)
     (Or.inl (by rw [cleanedCore_server1]; decide))⟩

/-- Counterexample to C7 as stated: with an empty image reference the
fallback is the empty base image name, so the display name is empty. -/
theorem claim_C7_counterexample :
    clean_container_name ("a".toList) ("".toList) = [] := clean_a_empty

/-- Claim C8, corrected: a name composed entirely of generic vocabulary
words and digits does not always collapse — `app-web` strips to the
surviving word `web` (3 characters, displayed `Web`); collapse to the
image-derived fallback happens when the residue is shorter than 3
characters, as for `server-1`, which reduces to `1` and falls back for
every image. -/
theorem claim_C8 :
    cleaned_core ("app-web".toList) = "web".toList ∧
    clean_container_name ("app-web".toList) ("nginx".toList) = "Web".toList ∧
    cleaned_core ("server-1".toList) = "1".toList ∧
    (∀ image : Str, clean_container_name ("server-1".toList) image =
      joinWith [' '] ((wordsWS (image_base image)).map pyCapitalize)) :=
  ⟨cleanedCore_appweb, clean_appweb_nginx, cleanedCore_server1, clean_server1⟩

/-- Counterexample to C8 as stated: `app-web` is composed entirely of
generic vocabulary words joined by a separator, yet its display name is
`Web`, not the image-derived fallback (`Nginx`). -/
theorem claim_C8_counterexample :
    clean_container_name ("app-web".toList) ("nginx".toList) = "Web".toList ∧
    "Web".toList ≠ joinWith [' '] ((wordsWS (image_base ("nginx".toList))).map pyCapitalize) :=
  ⟨clean_appweb_nginx, by decide⟩

/-- Claim C9, confirmed: both caught failure modes of the lister (missing
runtime binary and non-zero exit) produce the empty record list, and the
downstream catalog builder then produces an empty catalog. -/
theorem claim_C9 :
    get_docker_containers RunResult.fileNotFound = [] ∧
    get_docker_containers RunResult.calledProcessError = [] ∧
    process_containers (get_docker_containers RunResult.fileNotFound) = [] ∧
    process_containers (get_docker_containers RunResult.calledProcessError) = [] := by
  refine ⟨rfl, rfl, ?_, ?_⟩ <;>
    simp [process_containers, sortServices, get_docker_containers]

/-- Claim C10, confirmed: a line with fewer than four pipe-separated
fields is dropped; a non-blank line with at least four fields yields a
record built from exactly the first four fields, silently ignoring the
rest; stdout parsing is the per-line filter over the stripped output;
and a fifth field (for example after a literal `|` inside the ports
column) is truncated away. -/
theorem claim_C10 :
    (∀ line : Str, (splitOnChar '|' line).length < 4 → parseLine line = none) ∧
    (∀ line : Str, pyStrip line ≠ [] → (splitOnChar '|' line).length ≥ 4 →
      parseLine line = some
        { name := (splitOnChar '|' line).getD 0 [],
          image := (splitOnChar '|' line).getD 1 [],
          status := (splitOnChar '|' line).getD 2 [],
          ports := (splitOnChar '|' line).getD 3 [] }) ∧
    (∀ out : Str, get_docker_containers (RunResult.ok out) =
      (splitOnChar '\n' (pyStrip out)).filterMap parseLine) ∧
    parseLine ("n|i|s|p1|p2".toList) =
      some { name := "n".toList, image := "i".toList, status := "s".toList,
             ports := "p1".toList } := by
  refine ⟨?_, ?_, fun _ => rfl, by decide⟩
  · intro line hlen
    simp only [parseLine]
    split
    · rw [if_neg (by omega)]
    · rfl
  · intro line hne hlen
    simp only [parseLine]
    rw [if_pos hne, if_pos hlen]

/-- Witness for C10: the two-field line `a|b` is dropped, and the
five-field line `n|i|s|p1|p2` keeps exactly its first four fields. -/
theorem claim_C10_witness :
    ((splitOnChar '|' ("a|b".toList)).length < 4 ∧ parseLine ("a|b".toList) = none) ∧
    (pyStrip ("n|i|s|p1|p2".toList) ≠ [] ∧
      (splitOnChar '|' ("n|i|s|p1|p2".toList)).length ≥ 4 ∧
      parseLine ("n|i|s|p1|p2".toList) = some
        { name := (splitOnChar '|' ("n|i|s|p1|p2".toList)).getD 0 [],
          image := (splitOnChar '|' ("n|i|s|p1|p2".toList)).getD 1 [],
          status := (splitOnChar '|' ("n|i|s|p1|p2".toList)).getD 2 [],
          ports := (splitOnChar '|' ("n|i|s|p1|p2".toList)).getD 3 [] }) :=
  ⟨⟨by decide, claim_C10.1 ("a|b".toList) (by decide)⟩,
   ⟨by decide, by decide, claim_C10.2.1 ("n|i|s|p1|p2".toList) (by decide) (by decide)⟩⟩

end DockerDash
